import Mathlib

/-!
Verification of the SmartFood_Assistant conversational recipe session core.

The repository contains two provider-specific implementations of the same
protocol: `src/backend/new.py` (OpenAI backend) and
`src/backend/recipe_generator.py` (Gemini backend).  The pure logic they
share — the structured-response parsers (`parse_lang_and_options`,
`parse_dish_block`, `parse_steps`), the NEXT/REPEAT/STOP command resolution
inside `get_user_step_command`, and the interactive step-navigation loop
inside `main` — is embedded below over `List Char` / `String`, one namespace
per source file.

Python string primitives used by the source (`str.split`, `str.split(sep, 1)`,
`str.strip`, `str.lower`, `str.upper`, `str.startswith`, substring `in`) are
modelled by the helper functions at the top of the file.  ASCII case
conversion suffices for all inputs handled by these claims.
-/

set_option maxRecDepth 8000

/-- Model of Python `s.split(sep)` for a one-character separator:
splits into the (possibly empty) segments between occurrences of `sep`;
the empty input yields `[[]]`, like Python's `"".split(sep) == [""]`. -/
def splitOnChar (sep : Char) : List Char → List (List Char)
  | [] => [[]]
  | c :: cs =>
    if c = sep then [] :: splitOnChar sep cs
    else
      match splitOnChar sep cs with
      | [] => [[c]]
      | h :: t => (c :: h) :: t

/-- Model of Python `s.split(sep, 1)`: `some (before, after)` around the first
occurrence of `sep`, or `none` when `sep` does not occur (Python then returns
the one-element list `[s]`). -/
def splitFirst (sep : Char) : List Char → Option (List Char × List Char)
  | [] => none
  | c :: cs =>
    if c = sep then some ([], cs)
    else (splitFirst sep cs).map fun p => (c :: p.1, p.2)

/-- Everything after the first occurrence of `sep`, i.e. Python
`s.split(sep, 1)[1]` (the sources only evaluate this when `sep` is known to
occur, so the `none` fallback is never reached there). -/
def afterFirst (sep : Char) (l : List Char) : List Char :=
  match splitFirst sep l with
  | some p => p.2
  | none => []

/-- Model of Python `str.strip()`: drop whitespace from both ends. -/
def trimChars (l : List Char) : List Char :=
  ((l.dropWhile Char.isWhitespace).reverse.dropWhile Char.isWhitespace).reverse

/-- Model of Python `str.lower()` (ASCII). -/
def lowerChars (l : List Char) : List Char := l.map Char.toLower

/-- Model of Python `str.upper()` (ASCII). -/
def upperChars (l : List Char) : List Char := l.map Char.toUpper

/-- Model of Python substring containment `pat in s`. -/
def hasSub (pat l : List Char) : Bool := decide (pat <:+: l)

/-- Model of Python `s.startswith(pat)`. -/
def hasPre (pat l : List Char) : Bool := decide (pat <+: l)

/-- The fixed command vocabulary produced by `get_user_step_command` and
consumed by the step loop in `main` (both files). -/
inductive Command where
  | NEXT
  | REPEAT
  | STOP
deriving DecidableEq, Repr

/-- The five local variables returned (as a tuple) by `parse_dish_block`
in both source files. -/
structure DishBlock where
  dish_name : String
  ingredients_text : String
  question_text : String
  base_recipe_text : String
  image_prompt : String
deriving DecidableEq, Repr

namespace NewPy

/-- Loop body of `parse_lang_and_options` in `src/backend/new.py`
(lines 169–179): the two independent `if` statements update `lang_code`
(when the line contains `"LANG:"`) and `ai_question` (when it contains
`"OPTIONS:"`), both taking `line.split(":", 1)[1].strip()`, the language
code additionally lowercased. -/
def langOptStep (acc : List Char × List Char) (line : List Char) :
    List Char × List Char :=
  (if hasSub "LANG:".toList line then lowerChars (trimChars (afterFirst ':' line))
   else acc.1,
   if hasSub "OPTIONS:".toList line then trimChars (afterFirst ':' line)
   else acc.2)

/-- `parse_lang_and_options` from `src/backend/new.py` (lines 169–179):
starts from `("en", response_text)` and folds `langOptStep` over the
newline-split lines. -/
def parse_lang_and_options (response_text : String) : String × String :=
  let r := (splitOnChar '\n' response_text.toList).foldl langOptStep
    ("en".toList, response_text.toList)
  (⟨r.1⟩, ⟨r.2⟩)

/-- Loop body of `parse_dish_block` in `src/backend/new.py` (lines 182–202):
the line is stripped, then an `elif` chain over the five recognized
prefixes assigns `line.split(":", 1)[1].strip()` to the matching field. -/
def dishStep (acc : DishBlock) (line0 : List Char) : DishBlock :=
  if hasPre "DISH:".toList (trimChars line0) then
    { acc with dish_name := ⟨trimChars (afterFirst ':' (trimChars line0))⟩ }
  else if hasPre "INGREDIENTS:".toList (trimChars line0) then
    { acc with ingredients_text := ⟨trimChars (afterFirst ':' (trimChars line0))⟩ }
  else if hasPre "QUESTION:".toList (trimChars line0) then
    { acc with question_text := ⟨trimChars (afterFirst ':' (trimChars line0))⟩ }
  else if hasPre "RECIPE:".toList (trimChars line0) then
    { acc with base_recipe_text := ⟨trimChars (afterFirst ':' (trimChars line0))⟩ }
  else if hasPre "IMG:".toList (trimChars line0) then
    { acc with image_prompt := ⟨trimChars (afterFirst ':' (trimChars line0))⟩ }
  else acc

/-- `parse_dish_block` from `src/backend/new.py` (lines 182–202): all fields
start empty except `image_prompt = "Indian food"`. -/
def parse_dish_block (final_text : String) : DishBlock :=
  (splitOnChar '\n' final_text.toList).foldl dishStep
    { dish_name := "", ingredients_text := "", question_text := "",
      base_recipe_text := "", image_prompt := "Indian food" }

/-- Loop of `parse_steps` in `src/backend/new.py` (lines 205–226): strip the
line, skip it if empty, and when its lowercase form starts with `"step"`
append everything after the first colon (stripped), else after the first
hyphen (stripped), else nothing. -/
def stepLines : List (List Char) → List (List Char)
  | [] => []
  | line :: rest =>
    if trimChars line = [] then stepLines rest
    else if hasPre "step".toList (lowerChars (trimChars line)) then
      match splitFirst ':' (trimChars line) with
      | some p => trimChars p.2 :: stepLines rest
      | none =>
        match splitFirst '-' (trimChars line) with
        | some p => trimChars p.2 :: stepLines rest
        | none => stepLines rest
    else stepLines rest

/-- `parse_steps` from `src/backend/new.py` (lines 205–226). -/
def parse_steps (steps_text : String) : List String :=
  (stepLines (splitOnChar '\n' steps_text.toList)).map fun l => (⟨l⟩ : String)

/-- Command resolution at the end of `get_user_step_command` in
`src/backend/new.py` (lines 259–266): substring test for `"REPEAT"`, then
`"STOP"`, defaulting to `NEXT`. -/
def resolveRaw (command_raw : List Char) : Command :=
  if hasSub "REPEAT".toList command_raw then Command.REPEAT
  else if hasSub "STOP".toList command_raw then Command.STOP
  else Command.NEXT

/-- `get_user_step_command`'s interpretation of the chat model's reply in
`src/backend/new.py`: `chat(...)` strips the reply (line 160), the caller
uppercases it (line 259), and the result is resolved by the substring
precedence above. -/
def interpret_step_command (model_reply : String) : Command :=
  resolveRaw (upperChars (trimChars model_reply.toList))

end NewPy

namespace RecipeGenerator

/-- Loop body of `parse_lang_and_options` in `src/backend/recipe_generator.py`
(lines 125–135), identical in logic to the OpenAI variant. -/
def langOptStep (acc : List Char × List Char) (line : List Char) :
    List Char × List Char :=
  (if hasSub "LANG:".toList line then lowerChars (trimChars (afterFirst ':' line))
   else acc.1,
   if hasSub "OPTIONS:".toList line then trimChars (afterFirst ':' line)
   else acc.2)

/-- `parse_lang_and_options` from `src/backend/recipe_generator.py`
(lines 125–135). -/
def parse_lang_and_options (response_text : String) : String × String :=
  let r := (splitOnChar '\n' response_text.toList).foldl langOptStep
    ("en".toList, response_text.toList)
  (⟨r.1⟩, ⟨r.2⟩)

/-- Loop body of `parse_dish_block` in `src/backend/recipe_generator.py`
(lines 138–158). -/
def dishStep (acc : DishBlock) (line0 : List Char) : DishBlock :=
  if hasPre "DISH:".toList (trimChars line0) then
    { acc with dish_name := ⟨trimChars (afterFirst ':' (trimChars line0))⟩ }
  else if hasPre "INGREDIENTS:".toList (trimChars line0) then
    { acc with ingredients_text := ⟨trimChars (afterFirst ':' (trimChars line0))⟩ }
  else if hasPre "QUESTION:".toList (trimChars line0) then
    { acc with question_text := ⟨trimChars (afterFirst ':' (trimChars line0))⟩ }
  else if hasPre "RECIPE:".toList (trimChars line0) then
    { acc with base_recipe_text := ⟨trimChars (afterFirst ':' (trimChars line0))⟩ }
  else if hasPre "IMG:".toList (trimChars line0) then
    { acc with image_prompt := ⟨trimChars (afterFirst ':' (trimChars line0))⟩ }
  else acc

/-- `parse_dish_block` from `src/backend/recipe_generator.py` (lines 138–158). -/
def parse_dish_block (final_text : String) : DishBlock :=
  (splitOnChar '\n' final_text.toList).foldl dishStep
    { dish_name := "", ingredients_text := "", question_text := "",
      base_recipe_text := "", image_prompt := "Indian food" }

/-- Loop of `parse_steps` in `src/backend/recipe_generator.py`
(lines 161–183). -/
def stepLines : List (List Char) → List (List Char)
  | [] => []
  | line :: rest =>
    if trimChars line = [] then stepLines rest
    else if hasPre "step".toList (lowerChars (trimChars line)) then
      match splitFirst ':' (trimChars line) with
      | some p => trimChars p.2 :: stepLines rest
      | none =>
        match splitFirst '-' (trimChars line) with
        | some p => trimChars p.2 :: stepLines rest
        | none => stepLines rest
    else stepLines rest

/-- `parse_steps` from `src/backend/recipe_generator.py` (lines 161–183). -/
def parse_steps (steps_text : String) : List String :=
  (stepLines (splitOnChar '\n' steps_text.toList)).map fun l => (⟨l⟩ : String)

/-- Command resolution at the end of `get_user_step_command` in
`src/backend/recipe_generator.py` (lines 217–225): the same substring
precedence over `result_cmd.text.strip().upper()`. -/
def resolveRaw (command_raw : List Char) : Command :=
  if hasSub "REPEAT".toList command_raw then Command.REPEAT
  else if hasSub "STOP".toList command_raw then Command.STOP
  else Command.NEXT

/-- `get_user_step_command`'s interpretation of the Gemini reply text in
`src/backend/recipe_generator.py` (line 217): strip, uppercase, resolve. -/
def interpret_step_command (model_reply : String) : Command :=
  resolveRaw (upperChars (trimChars model_reply.toList))

end RecipeGenerator

/-- How the step loop in `main` exits: the `while step_index < len(steps)`
condition becoming false (`finished`), the `STOP` branch's `break`
(`stopped`), or the loop still waiting for a further spoken command
(`pending`, which models the blocking `input()` call when the supplied
command script is exhausted). -/
inductive NavOutcome where
  | finished
  | stopped
  | pending
deriving DecidableEq, Repr

/-- The interactive step loop of `main` (`src/backend/new.py` lines 446–463,
`src/backend/recipe_generator.py` lines 410–429; the two loops are
line-for-line identical).  `N` is `len(steps)` and `i` the current
`step_index`.  Each iteration announces step `i` (recorded in the returned
visit list) and then consumes one interpreted command: `NEXT` increments the
index, `REPEAT` re-enters the iteration with the same index, `STOP` breaks
out of the loop. -/
def runNav (N : Nat) (i : Nat) : List Command → List Nat × NavOutcome
  | [] => if i < N then ([i], NavOutcome.pending) else ([], NavOutcome.finished)
  | c :: rest =>
    if i < N then
      match c with
      | Command.NEXT => (i :: (runNav N (i + 1) rest).1, (runNav N (i + 1) rest).2)
      | Command.REPEAT => (i :: (runNav N i rest).1, (runNav N i rest).2)
      | Command.STOP => ([i], NavOutcome.stopped)
    else ([], NavOutcome.finished)

/-- Outcome of the step-by-step phase of `main`: either the empty-steps
notice (`"Could not parse steps. Using full recipe only."` followed by
`return`) or the corresponding step-loop exit. -/
inductive SessionOutcome where
  | noStepsNotice
  | navFinished
  | navStopped
  | navPending
deriving DecidableEq, Repr

def liftOutcome : NavOutcome → SessionOutcome
  | NavOutcome.finished => SessionOutcome.navFinished
  | NavOutcome.stopped => SessionOutcome.navStopped
  | NavOutcome.pending => SessionOutcome.navPending

/-- The tail of `main` after the step list is produced
(`src/backend/new.py` lines 429–465, `src/backend/recipe_generator.py`
lines 390–431): parse the steps; if the list is empty print the notice and
return without entering the loop; otherwise run the interactive loop from
`step_index = 0`.  Returns the announced step indices and the outcome. -/
def mainStepPhase (steps_text : String) (cmds : List Command) :
    List Nat × SessionOutcome :=
  if NewPy.parse_steps steps_text = [] then ([], SessionOutcome.noStepsNotice)
  else
    ((runNav (NewPy.parse_steps steps_text).length 0 cmds).1,
     liftOutcome (runNav (NewPy.parse_steps steps_text).length 0 cmds).2)

/-- Transcription of the steps-parser grammar exactly as the specification
states it: a line whose lowercase, whitespace-trimmed form starts with
`"step"` contributes the trimmed text after the first colon if the line
contains a colon, otherwise the trimmed text after the first hyphen if it
contains a hyphen, otherwise nothing; other lines contribute nothing.
Used only to compare the source's `parse_steps` against the specified
grammar. -/
def specStepEntry (line : List Char) : Option (List Char) :=
  if hasPre "step".toList (lowerChars (trimChars line)) then
    if hasSub [':'] (trimChars line) then
      some (trimChars (afterFirst ':' (trimChars line)))
    else if hasSub ['-'] (trimChars line) then
      some (trimChars (afterFirst '-' (trimChars line)))
    else none
  else none

-- sanity checks while developing
example : NewPy.parse_lang_and_options "LANG: HI\nOPTIONS: pick" = ("hi", "pick") := by decide
example : NewPy.parse_lang_and_options "hello" = ("en", "hello") := by decide
example : NewPy.parse_steps "STEP 1: a\nSTEP 2 - b\nSTEP 3\nother" = ["a", "b"] := by decide
example : NewPy.interpret_step_command "please stop now" = Command.STOP := by decide
example : NewPy.parse_dish_block "DISH: Khichdi\nIMG: khichdi" =
    { dish_name := "Khichdi", ingredients_text := "", question_text := "",
      base_recipe_text := "", image_prompt := "khichdi" } := by decide
example : runNav 3 0 [Command.NEXT, Command.REPEAT, Command.NEXT, Command.NEXT] =
    ([0, 1, 1, 2], NavOutcome.finished) := by decide
example : mainStepPhase "no parseable text" [Command.NEXT] =
    ([], SessionOutcome.noStepsNotice) := by decide
example : ∀ s : String,
    NewPy.parse_lang_and_options s = RecipeGenerator.parse_lang_and_options s :=
  fun _ => rfl
example : ∀ ls, NewPy.stepLines ls = RecipeGenerator.stepLines ls := by
  intro ls
  induction ls with
  | nil => rfl
  | cons line rest ih =>
    simp only [NewPy.stepLines, RecipeGenerator.stepLines, ih]

/-! ### Generic lemmas about the "if matched then overwrite" folds -/

theorem foldl_overwrite_skip {α β : Type} (p : α → Bool) (f : α → β) :
    ∀ (l : List α) (init : β), (∀ y ∈ l, p y = false) →
      l.foldl (fun acc z => if p z then f z else acc) init = init := by
  intro l
  induction l with
  | nil => intro init _; rfl
  | cons x xs ih =>
    intro init h
    have hx : p x = false := h x (List.mem_cons_self x xs)
    have hxs : ∀ y ∈ xs, p y = false := fun y hy => h y (List.mem_cons_of_mem x hy)
    simp only [List.foldl_cons, hx, if_neg (by simp [hx] : ¬(p x = true))]
    exact ih init hxs

theorem foldl_overwrite_last {α β : Type} (p : α → Bool) (f : α → β)
    (l₁ : List α) (x : α) (l₂ : List α) (init : β)
    (hx : p x = true) (hl₂ : ∀ y ∈ l₂, p y = false) :
    (l₁ ++ x :: l₂).foldl (fun acc z => if p z then f z else acc) init = f x := by
  rw [List.foldl_append, List.foldl_cons, if_pos hx]
  exact foldl_overwrite_skip p f l₂ (f x) hl₂

theorem foldl_overwrite_mem {α β : Type} (p : α → Bool) (f : α → β) :
    ∀ (l : List α) (init : β),
      l.foldl (fun acc z => if p z then f z else acc) init = init ∨
        ∃ x, x ∈ l ∧ p x = true ∧
          l.foldl (fun acc z => if p z then f z else acc) init = f x := by
  intro l
  induction l with
  | nil => intro init; exact Or.inl rfl
  | cons x xs ih =>
    intro init
    rcases ih (if p x then f x else init) with h | ⟨y, hy, hpy, he⟩
    · by_cases hp : p x = true
      · refine Or.inr ⟨x, List.mem_cons_self x xs, hp, ?_⟩
        rw [List.foldl_cons, h, if_pos hp]
      · refine Or.inl ?_
        rw [List.foldl_cons, h, if_neg hp]
    · exact Or.inr ⟨y, List.mem_cons_of_mem x hy, hpy,
        by rw [List.foldl_cons]; exact he⟩

/-! ### Lemmas about `splitFirst`, `trimChars` and `hasPre` -/

theorem splitFirst_some (c : Char) :
    ∀ (l : List Char) (p : List Char × List Char),
      splitFirst c l = some p → l = p.1 ++ c :: p.2 := by
  intro l
  induction l with
  | nil => intro p h; simp [splitFirst] at h
  | cons x xs ih =>
    intro p h
    by_cases hx : x = c
    · simp [splitFirst, hx] at h
      rw [← h]
      simp [hx]
    · simp [splitFirst, hx] at h
      obtain ⟨q1, q2, hq, hpq⟩ := h
      rw [← hpq]
      show x :: xs = x :: (q1 ++ c :: q2)
      exact congrArg _ (ih (q1, q2) hq)

theorem splitFirst_none (c : Char) :
    ∀ (l : List Char), splitFirst c l = none → c ∉ l := by
  intro l
  induction l with
  | nil => intro _ h; exact List.not_mem_nil c h
  | cons x xs ih =>
    intro h hm
    by_cases hx : x = c
    · simp [splitFirst, hx] at h
    · simp [splitFirst, hx] at h
      rcases List.mem_cons.mp hm with h1 | h2
      · exact hx h1.symm
      · exact ih h h2

theorem splitFirst_concat (c : Char) :
    ∀ (l₁ l₂ : List Char), c ∉ l₁ → splitFirst c (l₁ ++ c :: l₂) = some (l₁, l₂) := by
  intro l₁
  induction l₁ with
  | nil => intro l₂ _; simp [splitFirst]
  | cons x xs ih =>
    intro l₂ h
    have hx : ¬(x = c) := fun e => h (e ▸ List.mem_cons_self x xs)
    have hxs : c ∉ xs := fun hm => h (List.mem_cons_of_mem x hm)
    simp [splitFirst, hx, ih l₂ hxs]

theorem trimChars_space (xs : List Char) : trimChars (' ' :: xs) = trimChars xs := by
  unfold trimChars
  have : (' ' :: xs).dropWhile Char.isWhitespace = xs.dropWhile Char.isWhitespace := by
    simp [List.dropWhile]
  rw [this]

theorem take_app {α : Type} :
    ∀ (n : Nat) (l₁ l₂ : List α), n ≤ l₁.length → (l₁ ++ l₂).take n = l₁.take n := by
  intro n
  induction n with
  | zero => intro l₁ l₂ _; simp
  | succ m ih =>
    intro l₁ l₂ h
    cases l₁ with
    | nil => simp at h
    | cons x xs =>
      simp only [List.cons_append, List.take_succ_cons]
      rw [ih xs l₂ (by simpa using h)]

theorem hasPre_false_of (p q : List Char) {l : List Char} (hq : q.length ≤ p.length)
    (hne : p.take q.length ≠ q) (h : hasPre p l = true) : hasPre q l = false := by
  simp only [hasPre, decide_eq_true_eq] at h
  simp only [hasPre, decide_eq_false_iff_not]
  obtain ⟨u, hu⟩ := h
  rintro ⟨v, hv⟩
  apply hne
  have e : p ++ u = q ++ v := hu.trans hv.symm
  calc p.take q.length = (p ++ u).take q.length := (take_app q.length p u hq).symm
    _ = (q ++ v).take q.length := by rw [e]
    _ = q.take q.length := take_app q.length q v (Nat.le_refl _)
    _ = q := List.take_length q

theorem hasSub_of_splitFirst {c : Char} {l : List Char}
    {p : List Char × List Char} (h : splitFirst c l = some p) :
    hasSub [c] l = true := by
  simp only [hasSub, decide_eq_true_eq]
  exact ⟨p.1, p.2, by rw [List.append_assoc]; exact (splitFirst_some c l p h).symm⟩

theorem hasSub_false_of_splitFirst {c : Char} {l : List Char}
    (h : splitFirst c l = none) : hasSub [c] l = false := by
  simp only [hasSub, decide_eq_false_iff_not]
  rintro ⟨s, u, he⟩
  apply splitFirst_none c l h
  rw [← he]
  simp

/-! ### Componentwise views of `parse_lang_and_options` and `parse_dish_block` -/

theorem langOpt_fold_fst :
    ∀ (ls : List (List Char)) (acc : List Char × List Char),
      (ls.foldl NewPy.langOptStep acc).1 =
        ls.foldl (fun a line => if hasSub "LANG:".toList line then
          lowerChars (trimChars (afterFirst ':' line)) else a) acc.1 := by
  intro ls
  induction ls with
  | nil => intro acc; rfl
  | cons x xs ih =>
    intro acc
    exact ih (NewPy.langOptStep acc x)

theorem langOpt_fold_snd :
    ∀ (ls : List (List Char)) (acc : List Char × List Char),
      (ls.foldl NewPy.langOptStep acc).2 =
        ls.foldl (fun a line => if hasSub "OPTIONS:".toList line then
          trimChars (afterFirst ':' line) else a) acc.2 := by
  intro ls
  induction ls with
  | nil => intro acc; rfl
  | cons x xs ih =>
    intro acc
    exact ih (NewPy.langOptStep acc x)

theorem dishStep_name (acc : DishBlock) (line : List Char) :
    (NewPy.dishStep acc line).dish_name =
      if hasPre "DISH:".toList (trimChars line) then
        (⟨trimChars (afterFirst ':' (trimChars line))⟩ : String)
      else acc.dish_name := by
  unfold NewPy.dishStep
  split
  · rfl
  split
  · rfl
  split
  · rfl
  split
  · rfl
  split
  · rfl
  rfl

theorem dishStep_img (acc : DishBlock) (line : List Char) :
    (NewPy.dishStep acc line).image_prompt =
      if hasPre "IMG:".toList (trimChars line) then
        (⟨trimChars (afterFirst ':' (trimChars line))⟩ : String)
      else acc.image_prompt := by
  unfold NewPy.dishStep
  split
  · rename_i h
    have himg : hasPre ['I', 'M', 'G', ':'] (trimChars line) = false :=
      hasPre_false_of "DISH:".toList "IMG:".toList (by decide) (by decide) h
    rw [if_neg (by simp [himg])]
  split
  · rename_i h
    have himg : hasPre ['I', 'M', 'G', ':'] (trimChars line) = false :=
      hasPre_false_of "INGREDIENTS:".toList "IMG:".toList (by decide) (by decide) h
    rw [if_neg (by simp [himg])]
  split
  · rename_i h
    have himg : hasPre ['I', 'M', 'G', ':'] (trimChars line) = false :=
      hasPre_false_of "QUESTION:".toList "IMG:".toList (by decide) (by decide) h
    rw [if_neg (by simp [himg])]
  split
  · rename_i h
    have himg : hasPre ['I', 'M', 'G', ':'] (trimChars line) = false :=
      hasPre_false_of "RECIPE:".toList "IMG:".toList (by decide) (by decide) h
    rw [if_neg (by simp [himg])]
  split
  · rfl
  rfl

theorem dish_fold_name :
    ∀ (ls : List (List Char)) (acc : DishBlock),
      (ls.foldl NewPy.dishStep acc).dish_name =
        ls.foldl (fun a line => if hasPre "DISH:".toList (trimChars line) then
          (⟨trimChars (afterFirst ':' (trimChars line))⟩ : String) else a)
          acc.dish_name := by
  intro ls
  induction ls with
  | nil => intro acc; rfl
  | cons x xs ih =>
    intro acc
    rw [List.foldl_cons, List.foldl_cons, ih (NewPy.dishStep acc x), dishStep_name]

theorem dish_fold_img :
    ∀ (ls : List (List Char)) (acc : DishBlock),
      (ls.foldl NewPy.dishStep acc).image_prompt =
        ls.foldl (fun a line => if hasPre "IMG:".toList (trimChars line) then
          (⟨trimChars (afterFirst ':' (trimChars line))⟩ : String) else a)
          acc.image_prompt := by
  intro ls
  induction ls with
  | nil => intro acc; rfl
  | cons x xs ih =>
    intro acc
    rw [List.foldl_cons, List.foldl_cons, ih (NewPy.dishStep acc x), dishStep_img]

theorem bool_ne_true {b : Bool} (h : b = false) : ¬(b = true) := by
  rw [h]
  decide

theorem stepLines_eq_spec : ∀ ls : List (List Char),
    NewPy.stepLines ls = ls.filterMap specStepEntry := by
  intro ls
  induction ls with
  | nil => rfl
  | cons line rest ih =>
    by_cases h0 : trimChars line = []
    · have hval : specStepEntry line = none := by
        unfold specStepEntry
        rw [h0]
        decide
      have hl : NewPy.stepLines (line :: rest) = NewPy.stepLines rest := by
        simp only [NewPy.stepLines]
        rw [if_pos h0]
      rw [hl, ih, List.filterMap_cons, hval]
    · by_cases h1 : hasPre "step".toList (lowerChars (trimChars line)) = true
      · cases hc : splitFirst ':' (trimChars line) with
        | some p =>
          have hsub := hasSub_of_splitFirst hc
          have haf : afterFirst ':' (trimChars line) = p.2 := by
            unfold afterFirst; rw [hc]
          have hval : specStepEntry line = some (trimChars p.2) := by
            unfold specStepEntry
            rw [if_pos h1, if_pos hsub, haf]
          have hl : NewPy.stepLines (line :: rest) =
              trimChars p.2 :: NewPy.stepLines rest := by
            simp only [NewPy.stepLines]
            rw [if_neg h0, if_pos h1, hc]
          rw [hl, ih, List.filterMap_cons, hval]
        | none =>
          have hsub := hasSub_false_of_splitFirst hc
          cases hd : splitFirst '-' (trimChars line) with
          | some p =>
            have hsub2 := hasSub_of_splitFirst hd
            have haf : afterFirst '-' (trimChars line) = p.2 := by
              unfold afterFirst; rw [hd]
            have hval : specStepEntry line = some (trimChars p.2) := by
              unfold specStepEntry
              rw [if_pos h1, if_neg (by simp [hsub]), if_pos hsub2, haf]
            have hl : NewPy.stepLines (line :: rest) =
                trimChars p.2 :: NewPy.stepLines rest := by
              simp only [NewPy.stepLines]
              rw [if_neg h0, if_pos h1, hc, hd]
            rw [hl, ih, List.filterMap_cons, hval]
          | none =>
            have hsub2 := hasSub_false_of_splitFirst hd
            have hval : specStepEntry line = none := by
              unfold specStepEntry
              rw [if_pos h1, if_neg (by simp [hsub]), if_neg (by simp [hsub2])]
            have hl : NewPy.stepLines (line :: rest) = NewPy.stepLines rest := by
              simp only [NewPy.stepLines]
              rw [if_neg h0, if_pos h1, hc, hd]
            rw [hl, ih, List.filterMap_cons, hval]
      · have hval : specStepEntry line = none := by
          unfold specStepEntry
          rw [if_neg h1]
        have hl : NewPy.stepLines (line :: rest) = NewPy.stepLines rest := by
          simp only [NewPy.stepLines]
          rw [if_neg h0, if_neg h1]
        rw [hl, ih, List.filterMap_cons, hval]

/-! ### Claim theorems -/

/-- C1: For the step-navigation loop over a non-empty step list of length
`N`, with the loop at 0-based index `i < N`: `NEXT` moves to awaiting step
`i+1` (and the loop ends `finished` when `i+1 = N`), `REPEAT` re-announces
the same index `i`, and `STOP` ends the loop `stopped`; with 3 steps, the
command sequence `[NEXT, REPEAT, NEXT, NEXT]` announces steps `0, 1, 1, 2`
and then terminates `finished`. -/
theorem C1_step_navigation (N i : Nat) (rest : List Command) (h : i < N) :
    runNav N i (Command.NEXT :: rest) =
      (i :: (runNav N (i + 1) rest).1, (runNav N (i + 1) rest).2) ∧
    (i + 1 = N → runNav N i [Command.NEXT] = ([i], NavOutcome.finished)) ∧
    runNav N i (Command.REPEAT :: rest) =
      (i :: (runNav N i rest).1, (runNav N i rest).2) ∧
    runNav N i (Command.STOP :: rest) = ([i], NavOutcome.stopped) ∧
    runNav 3 0 [Command.NEXT, Command.REPEAT, Command.NEXT, Command.NEXT] =
      ([0, 1, 1, 2], NavOutcome.finished) := by
  refine ⟨?_, ?_, ?_, ?_, by decide⟩
  · simp [runNav, h]
  · intro hN
    have hnot : ¬(i + 1 < N) := by omega
    simp [runNav, h, hnot]
  · simp [runNav, h]
  · simp [runNav, h]

theorem C1_step_navigation_witness :
    0 < 3 ∧
    runNav 3 0 [Command.NEXT, Command.REPEAT, Command.NEXT, Command.NEXT] =
      ([0, 1, 1, 2], NavOutcome.finished) :=
  ⟨by decide, (C1_step_navigation 3 0 [] (by decide)).2.2.2.2⟩

/-- C2: The command interpreter first strips and uppercases the model reply;
on the normalized string, a `"REPEAT"` substring resolves to `REPEAT`,
otherwise a `"STOP"` substring resolves to `STOP`, otherwise the command is
`NEXT`; in particular `"REPEAT STOP"` resolves to `REPEAT`,
`"please stop now"` to `STOP`, `"sure go ahead"` to `NEXT`, and `""` to
`NEXT`. -/
theorem C2_command_precedence (s : String) :
    (hasSub "REPEAT".toList (upperChars (trimChars s.toList)) = true →
      NewPy.interpret_step_command s = Command.REPEAT) ∧
    (hasSub "REPEAT".toList (upperChars (trimChars s.toList)) = false →
      hasSub "STOP".toList (upperChars (trimChars s.toList)) = true →
      NewPy.interpret_step_command s = Command.STOP) ∧
    (hasSub "REPEAT".toList (upperChars (trimChars s.toList)) = false →
      hasSub "STOP".toList (upperChars (trimChars s.toList)) = false →
      NewPy.interpret_step_command s = Command.NEXT) ∧
    NewPy.interpret_step_command "REPEAT STOP" = Command.REPEAT ∧
    NewPy.interpret_step_command "please stop now" = Command.STOP ∧
    NewPy.interpret_step_command "sure go ahead" = Command.NEXT ∧
    NewPy.interpret_step_command "" = Command.NEXT := by
  refine ⟨?_, ?_, ?_, by decide, by decide, by decide, by decide⟩
  · intro h
    unfold NewPy.interpret_step_command NewPy.resolveRaw
    rw [if_pos h]
  · intro h1 h2
    unfold NewPy.interpret_step_command NewPy.resolveRaw
    rw [if_neg (bool_ne_true h1), if_pos h2]
  · intro h1 h2
    unfold NewPy.interpret_step_command NewPy.resolveRaw
    rw [if_neg (bool_ne_true h1), if_neg (bool_ne_true h2)]

theorem C2_command_precedence_witness :
    hasSub "REPEAT".toList (upperChars (trimChars "yes repeat that".toList)) = true ∧
    NewPy.interpret_step_command "yes repeat that" = Command.REPEAT :=
  ⟨by decide, (C2_command_precedence "yes repeat that").1 (by decide)⟩

/-- C3: For every step-list text, `parse_steps` realizes exactly the
specified per-line grammar (`specStepEntry`): lines whose lowercase trimmed
form starts with `"step"` contribute the trimmed text after the first
colon, else after the first hyphen, else nothing; in particular with step
lines `STEP 1:`, `STEP 2:`, `STEP 3: Boil water` the third entry is
`"Boil water"`, likewise for `STEP 3 - Boil water`, and a bare `STEP 3`
line yields no entry. -/
theorem C3_steps_grammar (t : String) :
    NewPy.parse_steps t =
      ((splitOnChar '\n' t.toList).filterMap specStepEntry).map
        (fun l => (⟨l⟩ : String)) ∧
    (NewPy.parse_steps "STEP 1:\nSTEP 2:\nSTEP 3: Boil water")[2]? =
      some "Boil water" ∧
    (NewPy.parse_steps "STEP 1:\nSTEP 2:\nSTEP 3 - Boil water")[2]? =
      some "Boil water" ∧
    NewPy.parse_steps "STEP 1:\nSTEP 2:\nSTEP 3" = ["", ""] := by
  refine ⟨?_, by decide, by decide, by decide⟩
  unfold NewPy.parse_steps
  rw [stepLines_eq_spec]

/-- C7: When `parse_steps` yields an empty step sequence, the tail of `main`
returns the user-visible notice outcome without announcing any step or
entering the navigation loop (and, being a total function, without raising
any exception). -/
theorem C7_empty_steps (t : String) (cmds : List Command)
    (h : NewPy.parse_steps t = []) :
    mainStepPhase t cmds = ([], SessionOutcome.noStepsNotice) := by
  unfold mainStepPhase
  rw [if_pos h]

theorem C7_empty_steps_witness :
    NewPy.parse_steps "The recipe is simple." = [] ∧
    mainStepPhase "The recipe is simple." [Command.NEXT, Command.STOP] =
      ([], SessionOutcome.noStepsNotice) :=
  ⟨by decide,
    C7_empty_steps "The recipe is simple." [Command.NEXT, Command.STOP] (by decide)⟩

/-- C9: The Gemini implementation (`recipe_generator.py`) and the OpenAI
implementation (`new.py`) realize an identical protocol: on every input
string their language/options parsers, dish-block parsers, steps parsers,
and command-resolution logic return equal results. -/
theorem C9_provider_equivalence (s : String) :
    NewPy.parse_lang_and_options s = RecipeGenerator.parse_lang_and_options s ∧
    NewPy.parse_dish_block s = RecipeGenerator.parse_dish_block s ∧
    NewPy.parse_steps s = RecipeGenerator.parse_steps s ∧
    NewPy.interpret_step_command s = RecipeGenerator.interpret_step_command s := by
  have hsteps : ∀ ls, NewPy.stepLines ls = RecipeGenerator.stepLines ls := by
    intro ls
    induction ls with
    | nil => rfl
    | cons line rest ih =>
      simp only [NewPy.stepLines, RecipeGenerator.stepLines, ih]
  refine ⟨rfl, rfl, ?_, rfl⟩
  unfold NewPy.parse_steps RecipeGenerator.parse_steps
  rw [hsteps]

theorem parse_lang_fst (t : String) :
    (NewPy.parse_lang_and_options t).1 =
      ⟨(splitOnChar '\n' t.toList).foldl
        (fun a line => if hasSub "LANG:".toList line then
          lowerChars (trimChars (afterFirst ':' line)) else a) "en".toList⟩ :=
  congrArg (fun l => (⟨l⟩ : String))
    (langOpt_fold_fst (splitOnChar '\n' t.toList) ("en".toList, t.toList))

theorem parse_lang_snd (t : String) :
    (NewPy.parse_lang_and_options t).2 =
      ⟨(splitOnChar '\n' t.toList).foldl
        (fun a line => if hasSub "OPTIONS:".toList line then
          trimChars (afterFirst ':' line) else a) t.toList⟩ :=
  congrArg (fun l => (⟨l⟩ : String))
    (langOpt_fold_snd (splitOnChar '\n' t.toList) ("en".toList, t.toList))

theorem parse_dish_name_view (t : String) :
    (NewPy.parse_dish_block t).dish_name =
      (splitOnChar '\n' t.toList).foldl
        (fun a line => if hasPre "DISH:".toList (trimChars line) then
          (⟨trimChars (afterFirst ':' (trimChars line))⟩ : String) else a) "" :=
  dish_fold_name (splitOnChar '\n' t.toList)
    { dish_name := "", ingredients_text := "", question_text := "",
      base_recipe_text := "", image_prompt := "Indian food" }

theorem parse_dish_img_view (t : String) :
    (NewPy.parse_dish_block t).image_prompt =
      (splitOnChar '\n' t.toList).foldl
        (fun a line => if hasPre "IMG:".toList (trimChars line) then
          (⟨trimChars (afterFirst ':' (trimChars line))⟩ : String) else a)
        "Indian food" :=
  dish_fold_img (splitOnChar '\n' t.toList)
    { dish_name := "", ingredients_text := "", question_text := "",
      base_recipe_text := "", image_prompt := "Indian food" }

theorem afterFirst_LANG (xx : List Char) :
    afterFirst ':' ("LANG: ".toList ++ xx) = ' ' :: xx := by
  have h := splitFirst_concat ':' ['L', 'A', 'N', 'G'] (' ' :: xx) (by decide)
  unfold afterFirst
  rw [show ("LANG: ".toList ++ xx) = ['L', 'A', 'N', 'G'] ++ ':' :: (' ' :: xx) from rfl, h]

theorem hasSub_LANG_start (xx : List Char) :
    hasSub "LANG:".toList ("LANG: ".toList ++ xx) = true := by
  simp only [hasSub, decide_eq_true_eq]
  exact ⟨[], ' ' :: xx, rfl⟩

/-- C4 (amended): if the last line of the response containing the substring
`"LANG:"` is of the form `LANG: xx`, the parser returns `xx` trimmed and
lowercased as the language code; a `LANG: xx` line followed by another
`LANG:` line is overwritten by the later one. -/
theorem C4_lang_line (t : String) (ls₁ ls₂ : List (List Char)) (xx : List Char)
    (hsplit : splitOnChar '\n' t.toList = ls₁ ++ ("LANG: ".toList ++ xx) :: ls₂)
    (hlast : ∀ x ∈ ls₂, hasSub "LANG:".toList x = false) :
    (NewPy.parse_lang_and_options t).1 = ⟨lowerChars (trimChars xx)⟩ := by
  rw [parse_lang_fst t, hsplit,
    foldl_overwrite_last _ _ ls₁ _ ls₂ _ (hasSub_LANG_start xx) hlast,
    afterFirst_LANG xx, trimChars_space]

theorem C4_lang_line_witness :
    splitOnChar '\n' ("LANG: Hi").toList =
      [] ++ ("LANG: ".toList ++ "Hi".toList) :: [] ∧
    (NewPy.parse_lang_and_options "LANG: Hi").1 =
      ⟨lowerChars (trimChars "Hi".toList)⟩ :=
  ⟨by decide, C4_lang_line "LANG: Hi" [] [] "Hi".toList (by decide) (by simp)⟩

theorem C4_counterexample :
    ("LANG: ".toList ++ "hi".toList) ∈ splitOnChar '\n' ("LANG: hi\nLANG: te").toList ∧
    (NewPy.parse_lang_and_options "LANG: hi\nLANG: te").1 = "te" ∧
    ("te" : String) ≠ ⟨lowerChars (trimChars "hi".toList)⟩ := by
  refine ⟨by decide, by decide, by decide⟩

/-- C5 (amended): for every response text with no `LANG:` line the parser
returns language code `"en"`; it additionally returns the full raw response
text as the question provided the text also has no `OPTIONS:` line. -/
theorem C5_lang_defaults (t : String) :
    ((∀ line ∈ splitOnChar '\n' t.toList, hasSub "LANG:".toList line = false) →
      (NewPy.parse_lang_and_options t).1 = "en") ∧
    ((∀ line ∈ splitOnChar '\n' t.toList, hasSub "LANG:".toList line = false) →
      (∀ line ∈ splitOnChar '\n' t.toList, hasSub "OPTIONS:".toList line = false) →
      NewPy.parse_lang_and_options t = ("en", t)) := by
  constructor
  · intro h
    rw [parse_lang_fst t, foldl_overwrite_skip _ _ _ _ h]
    rfl
  · intro h1 h2
    have e1 : (NewPy.parse_lang_and_options t).1 = "en" := by
      rw [parse_lang_fst t, foldl_overwrite_skip _ _ _ _ h1]
      rfl
    have e2 : (NewPy.parse_lang_and_options t).2 = t := by
      rw [parse_lang_snd t, foldl_overwrite_skip _ _ _ _ h2]
      rfl
    exact Prod.ext e1 e2

theorem C5_lang_defaults_witness :
    (∀ line ∈ splitOnChar '\n' ("hello there").toList,
      hasSub "LANG:".toList line = false) ∧
    (NewPy.parse_lang_and_options "hello there").1 = "en" :=
  ⟨by decide, (C5_lang_defaults "hello there").1 (by decide)⟩

theorem C5_counterexample :
    (∀ line ∈ splitOnChar '\n' ("OPTIONS: pick one").toList,
      hasSub "LANG:".toList line = false) ∧
    (NewPy.parse_lang_and_options "OPTIONS: pick one").2 = "pick one" ∧
    (NewPy.parse_lang_and_options "OPTIONS: pick one").2 ≠ "OPTIONS: pick one" := by
  refine ⟨by decide, by decide, by decide⟩

/-- C6: the dish-block parser extracts the five fields from the recognized
line prefixes, the concrete five-line response parses to the expected
tuple, every field defaults to the empty string, and `image_prompt`
defaults to `"Indian food"` whenever no `IMG:` line is present. -/
theorem C6_dish_block :
    NewPy.parse_dish_block "DISH: Khichdi\nINGREDIENTS: rice, lentils\nQUESTION: Do you have all these?\nRECIPE: Cook together.\nIMG: khichdi" =
      { dish_name := "Khichdi", ingredients_text := "rice, lentils",
        question_text := "Do you have all these?",
        base_recipe_text := "Cook together.", image_prompt := "khichdi" } ∧
    (∀ t : String,
      (∀ line ∈ splitOnChar '\n' t.toList,
        hasPre "IMG:".toList (trimChars line) = false) →
      (NewPy.parse_dish_block t).image_prompt = "Indian food") ∧
    NewPy.parse_dish_block "" =
      { dish_name := "", ingredients_text := "", question_text := "",
        base_recipe_text := "", image_prompt := "Indian food" } := by
  refine ⟨by decide, ?_, by decide⟩
  intro t h
  rw [parse_dish_img_view t, foldl_overwrite_skip _ _ _ _ h]

theorem C6_dish_block_witness :
    (∀ line ∈ splitOnChar '\n' ("DISH: Khichdi").toList,
      hasPre "IMG:".toList (trimChars line) = false) ∧
    (NewPy.parse_dish_block "DISH: Khichdi").image_prompt = "Indian food" :=
  ⟨by decide, C6_dish_block.2.1 "DISH: Khichdi" (by decide)⟩

/-- C8 (amended): the language code produced by stage 1 is a non-empty
string provided every `LANG:` line carries a non-empty value after its
first colon once trimmed; a bare `LANG:` line makes it empty. -/
theorem C8_lang_nonempty (t : String)
    (h : ∀ line ∈ splitOnChar '\n' t.toList,
      hasSub "LANG:".toList line = true →
      lowerChars (trimChars (afterFirst ':' line)) ≠ []) :
    (NewPy.parse_lang_and_options t).1 ≠ "" := by
  rw [parse_lang_fst t]
  rcases foldl_overwrite_mem (fun line => hasSub "LANG:".toList line)
    (fun line => lowerChars (trimChars (afterFirst ':' line)))
    (splitOnChar '\n' t.toList) "en".toList with he | ⟨x, hx, hpx, he⟩
  · rw [he]
    decide
  · rw [he]
    intro hcontra
    exact h x hx hpx (congrArg String.data hcontra)

theorem C8_lang_nonempty_witness :
    (∀ line ∈ splitOnChar '\n' ("LANG: te\nOPTIONS: what").toList,
      hasSub "LANG:".toList line = true →
      lowerChars (trimChars (afterFirst ':' line)) ≠ []) ∧
    (NewPy.parse_lang_and_options "LANG: te\nOPTIONS: what").1 ≠ "" :=
  ⟨by decide, C8_lang_nonempty "LANG: te\nOPTIONS: what" (by decide)⟩

theorem C8_counterexample : (NewPy.parse_lang_and_options "LANG:").1 = "" := by
  decide

/-- C10: when several lines are recognized for the same field, the parsers
keep the value from the last such line: the language code is the extract of
the last `LANG:` line, the dish name is the extract of the last `DISH:`
line, and concretely two `LANG:` (resp. `DISH:`) lines yield the later
value. -/
theorem C10_last_line_wins (t : String) (ls₁ ls₂ : List (List Char)) (l : List Char) :
    (splitOnChar '\n' t.toList = ls₁ ++ l :: ls₂ →
      hasSub "LANG:".toList l = true →
      (∀ x ∈ ls₂, hasSub "LANG:".toList x = false) →
      (NewPy.parse_lang_and_options t).1 =
        ⟨lowerChars (trimChars (afterFirst ':' l))⟩) ∧
    (splitOnChar '\n' t.toList = ls₁ ++ l :: ls₂ →
      hasPre "DISH:".toList (trimChars l) = true →
      (∀ x ∈ ls₂, hasPre "DISH:".toList (trimChars x) = false) →
      (NewPy.parse_dish_block t).dish_name =
        ⟨trimChars (afterFirst ':' (trimChars l))⟩) ∧
    (NewPy.parse_lang_and_options "LANG: hi\nLANG: te").1 = "te" ∧
    (NewPy.parse_dish_block "DISH: Dosa\nDISH: Idli").dish_name = "Idli" := by
  refine ⟨?_, ?_, by decide, by decide⟩
  · intro hsplit hl hlast
    rw [parse_lang_fst t, hsplit, foldl_overwrite_last _ _ ls₁ l ls₂ _ hl hlast]
  · intro hsplit hl hlast
    rw [parse_dish_name_view t, hsplit, foldl_overwrite_last _ _ ls₁ l ls₂ _ hl hlast]

theorem C10_last_line_wins_witness :
    splitOnChar '\n' ("intro\nLANG: FR").toList =
      ["intro".toList] ++ "LANG: FR".toList :: [] ∧
    (NewPy.parse_lang_and_options "intro\nLANG: FR").1 =
      ⟨lowerChars (trimChars (afterFirst ':' "LANG: FR".toList))⟩ :=
  ⟨by decide,
    (C10_last_line_wins "intro\nLANG: FR" ["intro".toList] [] "LANG: FR".toList).1
      (by decide) (by decide) (by simp)⟩
